import Mathlib

/-!
# Verification of `glad/parse.py` (OpenGL registry parser object model)

Shallow embedding of the single source file `src/glad/parse.py` (Python 2).
The XML layer (`xml.etree.ElementTree`) is modelled by a first-child /
next-sibling tree so that every traversal is structural recursion.  Python
exceptions (`KeyError`, `ValueError`, `AttributeError`, `TypeError`,
`AssertionError`, `NameError`, `IndexError`) are modelled by
`Except String`.  Python object identity is modelled by an allocation
counter threaded through the derivations: every constructor call consumes
one fresh `id`.  Python `set` membership uses `__hash__`/`__eq__`; for
`Enum`/`Command` the source defines `__hash__` by name and leaves the
default `__eq__` (object identity), so set membership is identity-based
and is modelled by structural equality of the embedded objects (whose
`id` fields separate distinct allocations).
-/

set_option autoImplicit false

deriving instance DecidableEq for Except

namespace Glad

/-! ## Python string semantics -/

/-- The characters Python's `str.strip()` removes (ASCII whitespace). -/
def pyIsSpace (c : Char) : Bool :=
  c = ' ' || c = '\t' || c = '\n' || c = '\r' || c = '\x0b' || c = '\x0c'

/-- Remove leading and trailing characters satisfying `p` from a char list. -/
def stripList (p : Char → Bool) (l : List Char) : List Char :=
  ((l.dropWhile p).reverse.dropWhile p).reverse

/-- Python `s.strip()`. -/
def pyStrip (s : String) : String :=
  String.mk (stripList pyIsSpace s.toList)

/-- Python `s.strip(chars)`: removes leading/trailing characters that are
members of the character SET `chars` (not the substring `chars`). -/
def pyStripChars (chars : String) (s : String) : String :=
  String.mk (stripList (fun c => chars.toList.contains c) s.toList)

/-- Python `s.split(None, 1)[0]`: the first whitespace-delimited token.
`none` models the `IndexError` raised when `s` contains no token. -/
def pyFirstTok (s : String) : Option String :=
  let l := s.toList.dropWhile pyIsSpace
  if l = [] then none else some (String.mk (l.takeWhile (fun c => !pyIsSpace c)))

/-- Python `s.count(c)` for a single character. -/
def pyCount (s : String) (c : Char) : Nat :=
  s.toList.count c

/-- `containsSubAux pat l`: does `pat` occur as a contiguous sublist of `l`? -/
def containsSubAux (pat : List Char) : List Char → Bool
  | [] => pat.isPrefixOf ([] : List Char)
  | c :: cs => pat.isPrefixOf (c :: cs) || containsSubAux pat cs

/-- Python `sub in s` (substring containment). -/
def pyInStr (sub s : String) : Bool :=
  containsSubAux sub.toList s.toList

/-- Worker for `pyReplace`: when `skip = n+1`, the previous match is still
being consumed; otherwise test for a match at the current position.
Structural in the list so that it reduces in the kernel. -/
def replaceGo (pat rep : List Char) : List Char → Nat → List Char
  | [], _ => []
  | _ :: cs, Nat.succ n => replaceGo pat rep cs n
  | c :: cs, 0 =>
      if pat.isPrefixOf (c :: cs) then
        rep ++ replaceGo pat rep cs (pat.length - 1)
      else
        c :: replaceGo pat rep cs 0

/-- Python `s.replace(pat, rep)` for a non-empty `pat` (left-to-right,
non-overlapping). -/
def pyReplace (pat rep s : String) : String :=
  String.mk (replaceGo pat.toList rep.toList s.toList 0)

/-- Python `s.split(sep)` for a one-character separator. -/
def splitCharList (sep : Char) : List Char → List (List Char)
  | [] => [[]]
  | c :: cs =>
      let r := splitCharList sep cs
      if c = sep then [] :: r
      else
        match r with
        | [] => [[c]]
        | h :: t => (c :: h) :: t

/-- Python `s.split(sep)` for a one-character separator, on `String`. -/
def pySplitChar (s : String) (sep : Char) : List String :=
  (splitCharList sep s.toList).map String.mk

/-- Digits of a char list as a number, `none` unless nonempty and all digits. -/
def digitsToNat (l : List Char) : Option Nat :=
  if l ≠ [] ∧ l.all Char.isDigit then
    some (l.foldl (fun a c => a * 10 + (c.toNat - 48)) 0)
  else none

/-- Python `int(s)`: optional surrounding whitespace, optional sign, digits;
`none` models the `ValueError` on anything else. -/
def pyInt (s : String) : Option Int :=
  match stripList pyIsSpace s.toList with
  | '+' :: rest => (digitsToNat rest).map Int.ofNat
  | '-' :: rest => (digitsToNat rest).map (fun n => -(n : Int))
  | rest => (digitsToNat rest).map Int.ofNat

/-- Python `str(x)` for an optional string attribute: `None` prints as
`"None"` (used by `'{}'.format(self.type)` when `type` is `None`). -/
def pyStrOpt : Option String → String
  | none => "None"
  | some s => s

/-- `'*' * n` -/
def stars (n : Nat) : String :=
  String.mk (List.replicate n '*')

/-! ## Python `dict` as an association list (insert replaces in place,
lookup by key; later inserts of the same key overwrite). -/

/-- Python `d[k] = v`. -/
def dictInsert {κ α : Type} [DecidableEq κ] (k : κ) (v : α) :
    List (κ × α) → List (κ × α)
  | [] => [(k, v)]
  | (k', v') :: rest =>
      if k' = k then (k, v) :: rest else (k', v') :: dictInsert k v rest

/-- Python `d[k]` as an `Option` (so `KeyError` can be modelled at use sites). -/
def dictLookup {κ α : Type} [DecidableEq κ] (k : κ) :
    List (κ × α) → Option α
  | [] => none
  | (k', v) :: rest => if k' = k then some v else dictLookup k rest

/-- Turn an `Option` into an `Except`, naming the Python exception raised
when the value is absent. -/
def getOrErr {α : Type} : Option α → String → Except String α
  | some a, _ => .ok a
  | none, e => .error e

/-! ## `xml.etree.ElementTree` model

A first-child / next-sibling tree: `elem tag attrs text tail children next`
holds the element's first child in `children` (its siblings chained through
their `next` fields) and the element's own next sibling in `next`.  `nil`
ends a sibling chain.  `text` is the text before the first child, `tail`
the text after this element's closing tag (as in ElementTree). -/

inductive Element : Type where
  | nil : Element
  | elem (tag : String) (attrs : List (String × String))
      (text tail : Option String) (children next : Element) : Element
deriving DecidableEq

namespace Element

/-- Re-chain a Lean list of elements into a sibling chain (helper used only
to write down concrete documents; it overwrites each `next`). -/
def chainOf : List Element → Element
  | [] => .nil
  | .nil :: es => chainOf es
  | .elem t a x tl ch _ :: es => .elem t a x tl ch (chainOf es)

/-- Build an element from a tag, attributes, text and a child list. -/
def el (tag : String) (attrs : List (String × String))
    (text : Option String) (children : List Element) : Element :=
  .elem tag attrs text none (chainOf children) .nil

/-- The element's tag (`""` on `nil`, which is never queried). -/
def tagOf : Element → String
  | .nil => ""
  | .elem t _ _ _ _ _ => t

/-- The element's `.text`. -/
def textOf : Element → Option String
  | .nil => none
  | .elem _ _ x _ _ _ => x

/-- The element's `.tail`. -/
def tailOf : Element → Option String
  | .nil => none
  | .elem _ _ _ tl _ _ => tl

/-- Python `element.get(key)` / `element.attrib[key]` (the latter raising
`KeyError` on `none` at use sites). -/
def attrGet (key : String) : Element → Option String
  | .nil => none
  | .elem _ a _ _ _ _ => dictLookup key a

/-- A sibling chain as a Lean list. -/
def chainToList : Element → List Element
  | .nil => []
  | .elem t a x tl ch nx => .elem t a x tl ch nx :: chainToList nx

/-- The direct children of an element, as a Lean list (Python
`for child in element`). -/
def childListOf : Element → List Element
  | .nil => []
  | .elem _ _ _ _ ch _ => chainToList ch

/-- First direct child with the given tag (Python `element.find(tag)`). -/
def findChild (tag : String) : Element → Option Element
  | .nil => none
  | .elem t a x tl ch nx =>
      if t = tag then some (.elem t a x tl ch nx) else findChild tag nx

/-- Python `element.find(tag)`: searches direct children only. -/
def find (tag : String) : Element → Option Element
  | .nil => none
  | .elem _ _ _ _ ch _ => findChild tag ch

/-- Python `element.findall(tag)`: all direct children with the tag. -/
def findall (tag : String) (e : Element) : List Element :=
  (childListOf e).filter (fun c => c.tagOf = tag)

/-- Concatenated `itertext() (+ tail)` over a sibling chain:
for each element, its text, its descendants' text-with-tails, its tail. -/
def textWithTails : Element → String
  | .nil => ""
  | .elem _ _ x tl ch nx =>
      x.getD "" ++ textWithTails ch ++ tl.getD "" ++ textWithTails nx

/-- Python `''.join(element.itertext())`: the element's text followed by
each descendant's text and tail (the element's own tail excluded). -/
def itertext : Element → String
  | .nil => ""
  | .elem _ _ x _ ch _ => x.getD "" ++ textWithTails ch

/-- All elements of a sibling chain (and their descendants) with the given
tag, in document order. -/
def iterChain (tag : String) : Element → List Element
  | .nil => []
  | .elem t a x tl ch nx =>
      (if t = tag then [Element.elem t a x tl ch nx] else [])
        ++ iterChain tag ch ++ iterChain tag nx

/-- Python `element.iter(tag)`: the element itself (if tagged `tag`) and all
descendants with that tag, in document order. -/
def iterTag (tag : String) : Element → List Element
  | .nil => []
  | .elem t a x tl ch _ =>
      (if t = tag then [Element.elem t a x tl ch .nil] else [])
        ++ iterChain tag ch

end Element

/-! ## `OGLType`

```python
class OGLType(object):
    def __init__(self, element):
        text = ''.join(element.itertext())
        self.type = (text.strip().strip('const').strip().split(None, 1)[0]
                if element.find('ptype') is None else element.find('ptype').text)
        self.is_pointer = 0 if text is None else text.count('*')
        self.is_const = False if text is None else 'const' in text
```
`text` is a `str.join` result, never `None`, so the two `if text is None`
guards always take the `else` branch. -/

structure OGLType where
  type : Option String
  is_pointer : Nat
  is_const : Bool
deriving DecidableEq

namespace OGLType

/-- `OGLType.__init__`.  The `.error` models the `IndexError` from
`split(None, 1)[0]` when the stripped text has no token. -/
def ofElement (element : Element) : Except String OGLType := do
  let text := element.itertext
  let ty ← match element.find "ptype" with
    | some p => Except.ok p.textOf
    | none =>
        match pyFirstTok (pyStrip (pyStripChars "const" (pyStrip text))) with
        | some tok => Except.ok (some tok)
        | none => Except.error "IndexError: list index out of range"
  Except.ok ⟨ty, pyCount text '*', pyInStr "const" text⟩

/-- `OGLType.to_d` (also bound as `to_volt` and `__str__`). -/
def to_d (t : OGLType) : String :=
  let s :=
    if t.is_pointer > 1 && t.is_const then
      "const(" ++ pyStrOpt t.type ++ "*)" ++ stars (t.is_pointer - 1)
    else
      (if t.is_const then "const(" ++ pyStrOpt t.type ++ ")" else pyStrOpt t.type)
        ++ stars t.is_pointer
  pyReplace "struct " "" s

/-- `OGLType.to_c`. -/
def to_c (t : OGLType) : String :=
  (if t.is_const then "const " ++ pyStrOpt t.type else pyStrOpt t.type)
    ++ stars t.is_pointer

end OGLType

/-! ## Value holders: `Type` (renamed `TypeAlias`), `Group`, `Enum`,
`Command`/`Proto`/`Param`

`Enum.__hash__` and `Command.__hash__` return `hash(self.name)` /
`hash(self.proto.name)`; neither class defines `__eq__`, so Python equality
is default object identity.  Identity is modelled by the `id` field, a
fresh allocation number per constructor call; "the same object" is
structural equality (distinct allocations always differ in `id`). -/

/-- `class Type` of the source (renamed: `Type` is a Lean keyword). -/
structure TypeAlias where
  raw : String
deriving DecidableEq

/-- `Type.is_preprocessor`: `'#' in self.raw`. -/
def TypeAlias.is_preprocessor (t : TypeAlias) : Bool :=
  pyInStr "#" t.raw

structure Group where
  name : String
  enums : List String
deriving DecidableEq

structure Enum where
  id : Nat
  name : String
  value : String
  namespc : String
  type : Option String
  group : Option String
  vendor : Option String
  comment : String
deriving DecidableEq

structure Proto where
  name : Option String
  ret : OGLType
deriving DecidableEq

structure Param where
  group : Option String
  type : OGLType
  name : Option String
deriving DecidableEq

structure Command where
  id : Nat
  proto : Proto
  params : List Param
deriving DecidableEq

/-- A stand-in for Python's opaque string hash. -/
def pyHashStr (s : Option String) : UInt64 :=
  match s with
  | none => 0
  | some s => s.hash

/-- `Enum.__hash__`: `hash(self.name)`. -/
def Enum.pyHash (e : Enum) : UInt64 := pyHashStr (some e.name)

/-- Python equality on `Enum`: the class defines no `__eq__`, so `==` is
object identity (equality of allocations). -/
def Enum.pyEq (a b : Enum) : Bool := decide (a = b)

/-- `Command.__hash__`: `hash(self.proto.name)`. -/
def Command.pyHash (c : Command) : UInt64 := pyHashStr c.proto.name

/-- Python equality on `Command`: the class defines no `__eq__`, so `==`
is object identity (equality of allocations). -/
def Command.pyEq (a b : Command) : Bool := decide (a = b)

/-- An entry of an `Extension.require` list or of `spec._remove`: an `Enum`
or `Command` object reference. -/
inductive Ref : Type where
  | enum (e : Enum)
  | cmd (c : Command)
deriving DecidableEq

/-- `spec._remove.add r` (Python `set.add`; membership is by
`__hash__`/`__eq__`, which for these objects is identity). -/
def pySetAdd (l : List Ref) (r : Ref) : List Ref :=
  if r ∈ l then l else l ++ [r]

/-! ## `OpenGLSpec` state and queries -/

/-- The mutable part of an `OpenGLSpec`: `_profile` and `_remove`. -/
structure SpecState where
  profile : String
  remove : List Ref
deriving DecidableEq

/-- `OpenGLSpec.__init__` sets `_profile = 'compatability'`,
`_remove = set()`. -/
def SpecState.init : SpecState := ⟨"compatability", []⟩

namespace OpenGLSpec

/-- The `profile` setter:
```python
if not value in ('core', 'compatability'):
    raise ValueError('profile must either be core or compatability')
self._profile = value
``` -/
def setProfile (st : SpecState) (value : String) : Except String SpecState :=
  if ¬(value = "core" ∨ value = "compatability") then
    .error "profile must either be core or compatability"
  else
    .ok { st with profile := value }

/-- The `removed` property: `frozenset(self._remove)` when the profile is
`'core'`, else `frozenset()`.  Evaluated at query time from the current
state. -/
def removed (st : SpecState) : List Ref :=
  if st.profile = "core" then st.remove else []

end OpenGLSpec

/-! ## Derived tables: `enums`, `commands`, `groups`, `types`

Each derivation threads the allocation counter and returns
`Except String` for the Python exceptions it can raise.  Dictionary
comprehension / assignment overwrite duplicates (`dictInsert`). -/

/-- One `<enums>` block (lines 97-111): read the block attributes, then
fold its children into the dict (`unused` skipped, any tag other than
`enum` fails the `assert`). -/
def enumsBlock (block : Element) (acc : List (String × Enum) × Nat) :
    Except String (List (String × Enum) × Nat) := do
  let namespc ← getOrErr (block.attrGet "namespace") "KeyError: namespace"
  let type := block.attrGet "type"
  let group := block.attrGet "group"
  let vendor := block.attrGet "vendor"
  let comment := (block.attrGet "comment").getD ""
  block.childListOf.foldlM
    (fun (acc : List (String × Enum) × Nat) child => do
      if child.tagOf = "unused" then
        pure acc
      else if child.tagOf ≠ "enum" then
        Except.error "AssertionError"
      else do
        let name ← getOrErr (child.attrGet "name") "KeyError: name"
        let value ← getOrErr (child.attrGet "value") "KeyError: value"
        pure (dictInsert name
          (Enum.mk acc.2 name value namespc type group vendor comment) acc.1,
          acc.2 + 1))
    acc

/-- `OpenGLSpec.enums`: iterate every `<enums>` node anywhere in the tree. -/
def deriveEnums (root : Element) (ctr : Nat) :
    Except String (List (String × Enum) × Nat) :=
  (root.iterTag "enums").foldlM (fun acc block => enumsBlock block acc) ([], ctr)

/-- `Param.__init__`: `group` via `.get`, type via `OGLType`, name via
`element.find('name').text` (`AttributeError` when the child is absent). -/
def Param.ofElement (element : Element) : Except String Param := do
  let group := element.attrGet "group"
  let type ← OGLType.ofElement element
  let nameEl ← getOrErr (element.find "name") "AttributeError: NoneType has no attribute text"
  pure ⟨group, type, nameEl.textOf⟩

/-- `Proto.__init__`: `name` via `element.find('name').text`, return type
via `OGLType(element)`. -/
def Proto.ofElement (element : Element) : Except String Proto := do
  let nameEl ← getOrErr (element.find "name") "AttributeError: NoneType has no attribute text"
  let ret ← OGLType.ofElement element
  pure ⟨nameEl.textOf, ret⟩

/-- `Command.__init__`: proto from the `<proto>` child (`AttributeError`
when absent), params from `element.iter('param')`. -/
def Command.ofElement (id : Nat) (element : Element) : Except String Command := do
  let protoEl ← getOrErr (element.find "proto") "AttributeError: NoneType has no attribute find"
  let proto ← Proto.ofElement protoEl
  let params ← (element.iterTag "param").mapM Param.ofElement
  pure ⟨id, proto, params⟩

/-- `OpenGLSpec.commands`: `TypeError` when the `<commands>` container is
absent (iterating `None`); the dict key is
`element.find('proto').find('name').text` (an `Option String`, since `.text`
may be `None`). -/
def deriveCommands (root : Element) (ctr : Nat) :
    Except String (List (Option String × Command) × Nat) := do
  let container ← getOrErr (root.find "commands") "TypeError: NoneType is not iterable"
  container.childListOf.foldlM
    (fun (acc : List (Option String × Command) × Nat) element => do
      let protoEl ← getOrErr (element.find "proto") "AttributeError: NoneType has no attribute find"
      let nameEl ← getOrErr (protoEl.find "name") "AttributeError: NoneType has no attribute text"
      let cmd ← Command.ofElement acc.2 element
      pure (dictInsert nameEl.textOf cmd acc.1, acc.2 + 1))
    ([], ctr)

/-- `Group.__init__` plus the `groups` dict comprehension key
(`element.attrib['name']`, `KeyError` when absent — for the dict key and
for each child's `name`). -/
def deriveGroups (root : Element) :
    Except String (List (String × Group)) := do
  let container ← getOrErr (root.find "groups") "TypeError: NoneType is not iterable"
  container.childListOf.foldlM
    (fun (acc : List (String × Group)) element => do
      let name ← getOrErr (element.attrGet "name") "KeyError: name"
      let enums ← element.childListOf.mapM
        (fun child => getOrErr (child.attrGet "name") "KeyError: name")
      pure (dictInsert name (Group.mk name enums) acc))
    []

/-- `OpenGLSpec.types`: one `Type` per `<types>`-tagged node anywhere in
the tree. -/
def deriveTypes (root : Element) : List TypeAlias :=
  (root.iterTag "types").map (fun e => TypeAlias.mk e.itertext)

/-! ## `Extension` and `Feature`

```python
for required in chain.from_iterable(element.findall('require')):
    if required.tag == 'type': continue
    data = { 'enum' : spec.enums, 'command' : spec.commands }[required.tag]
    try:
        self.require.append(data[required.attrib['name']])
    except KeyError:
        pass # TODO
```
The lazily cached `spec.enums` / `spec.commands` properties are passed as
`Except` values: they are only forced (pattern-matched, surfacing their
errors) when the loop reaches a non-`type` entry — the dict literal
evaluates both properties before indexing by tag, so an unknown tag
(uncaught `KeyError`) surfaces only after both tables succeeded.  A missing
`name` attribute or a failed table lookup is the caught `KeyError`:
the entry is silently skipped. -/

/-- The derived `enums` table type (keys are `name` attributes). -/
abbrev EnumTable := List (String × Enum)

/-- The derived `commands` table type (keys are `<proto><name>` texts). -/
abbrev CmdTable := List (Option String × Command)

/-- Resolve one `<require>`/`<remove>` child.  `Except.ok none` is a
skipped entry (a `type` entry, or a caught `KeyError`). -/
def resolveEntry (enumsT : Except String EnumTable)
    (commandsT : Except String CmdTable) (required : Element) :
    Except String (Option Ref) :=
  if required.tagOf = "type" then .ok none
  else do
    let enums ← enumsT
    let commands ← commandsT
    match required.tagOf with
    | "enum" =>
        pure ((required.attrGet "name").bind
          (fun n => (dictLookup n enums).map Ref.enum))
    | "command" =>
        pure ((required.attrGet "name").bind
          (fun n => (dictLookup (some n) commands).map Ref.cmd))
    | _ => .error "KeyError: tag"

structure Extension where
  id : Nat
  name : String
  require : List Ref
deriving DecidableEq

/-- One iteration of the `require` loop: a skipped entry leaves the list
alone, a resolved one is appended. -/
def requireStep (enumsT : Except String EnumTable)
    (commandsT : Except String CmdTable) (acc : List Ref)
    (required : Element) : Except String (List Ref) := do
  match (← resolveEntry enumsT commandsT required) with
  | none => pure acc
  | some r => pure (acc ++ [r])

/-- `Extension.__init__` (one fresh allocation, counter returned
incremented): name from `element.attrib['name']` (uncaught `KeyError` when
absent), then the require-resolution loop over the concatenated children
of all `<require>` blocks. -/
def Extension.ofElement (enumsT : Except String EnumTable)
    (commandsT : Except String CmdTable) (ctr : Nat) (element : Element) :
    Except String (Extension × Nat) := do
  let name ← getOrErr (element.attrGet "name") "KeyError: name"
  let require ← ((element.findall "require").map Element.childListOf).flatten.foldlM
    (requireStep enumsT commandsT) []
  pure (⟨ctr, name, require⟩, ctr + 1)

/-- `Extension.enums`: the `Enum` entries of the require list, in order. -/
def Extension.enums (x : Extension) : List Enum :=
  x.require.filterMap (fun r => match r with
    | .enum e => some e
    | .cmd _ => none)

/-- `Extension.functions`: the `Command` entries of the require list. -/
def Extension.functions (x : Extension) : List Command :=
  x.require.filterMap (fun r => match r with
    | .enum _ => none
    | .cmd c => some c)

/-- `Feature` IS-A `Extension`; flattened here (the inherited fields plus
`number` and `api`; the allocation is the one object, so the `id` is the
base `Extension`'s). -/
structure Feature where
  id : Nat
  name : String
  require : List Ref
  number : List Int
  api : String
deriving DecidableEq

/-- One iteration of the `<remove>` loop: a resolved reference is added to
the spec-wide removal set (`spec._remove.add(...)`), a skipped entry
changes nothing. -/
def removeStep (enumsT : Except String EnumTable)
    (commandsT : Except String CmdTable) (st : SpecState)
    (removedEl : Element) : Except String SpecState := do
  match (← resolveEntry enumsT commandsT removedEl) with
  | none => pure st
  | some r => pure { st with remove := pySetAdd st.remove r }

/-- `Feature.__init__`: the base `Extension.__init__`, then the
`<remove>` resolution loop adding each resolved reference to the
spec-wide `spec._remove` set (the state mutation), then
`number`/`api` from attributes (`tuple(map(int, number.split('.')))`). -/
def Feature.ofElement (enumsT : Except String EnumTable)
    (commandsT : Except String CmdTable) (ctr : Nat) (st : SpecState)
    (element : Element) : Except String (Feature × Nat × SpecState) := do
  let (base, ctr') ← Extension.ofElement enumsT commandsT ctr element
  let st' ← ((element.findall "remove").map Element.childListOf).flatten.foldlM
    (removeStep enumsT commandsT) st
  let numberStr ← getOrErr (element.attrGet "number") "KeyError: number"
  let number ← (pySplitChar numberStr '.').mapM
    (fun s => getOrErr (pyInt s) "ValueError: invalid literal for int")
  let api ← getOrErr (element.attrGet "api") "KeyError: api"
  pure (⟨base.id, base.name, base.require, number, api⟩, ctr', st')

/-- `Feature.enums`: the inherited view, additionally dropping anything in
`self.spec.removed` at query time. -/
def Feature.enums (f : Feature) (st : SpecState) : List Enum :=
  (f.require.filterMap (fun r => match r with
    | .enum e => some e
    | .cmd _ => none)).filter
    (fun e => decide (Ref.enum e ∉ OpenGLSpec.removed st))

/-- `Feature.functions`: the inherited view, additionally dropping anything
in `self.spec.removed` at query time. -/
def Feature.functions (f : Feature) (st : SpecState) : List Command :=
  (f.require.filterMap (fun r => match r with
    | .enum _ => none
    | .cmd c => some c)).filter
    (fun c => decide (Ref.cmd c ∉ OpenGLSpec.removed st))

/-! ## `features` and `extensions` derivations -/

/-- `features` is `defaultdict(OrderedDict)`: api → (version tuple →
Feature), insertion-ordered. -/
abbrev FeatMap := List (String × List (List Int × Feature))

instance : DecidableEq FeatMap := inferInstance

/-- `self._features[api][num] = f` on a `defaultdict(OrderedDict)`. -/
def featInsert (api : String) (num : List Int) (f : Feature) :
    FeatMap → FeatMap
  | [] => [(api, [(num, f)])]
  | (a, inner) :: rest =>
      if a = api then (a, dictInsert num f inner) :: rest
      else (a, inner) :: featInsert api num f rest

/-- `OpenGLSpec.features`: for every `<feature>` node anywhere in the tree,
parse `number`, construct the `Feature` (mutating the removal set), and
store it under `(api, number)`. -/
def deriveFeatures (root : Element) (enumsT : Except String EnumTable)
    (commandsT : Except String CmdTable) (ctr : Nat) (st : SpecState) :
    Except String (FeatMap × Nat × SpecState) :=
  (root.iterTag "feature").foldlM
    (fun (acc : FeatMap × Nat × SpecState) element => do
      let numberStr ← getOrErr (element.attrGet "number") "KeyError: number"
      let num ← (pySplitChar numberStr '.').mapM
        (fun s => getOrErr (pyInt s) "ValueError: invalid literal for int")
      let (f, ctr', st') ←
        Feature.ofElement enumsT commandsT acc.2.1 acc.2.2 element
      let api ← getOrErr (element.attrGet "api") "KeyError: api"
      pure (featInsert api num f acc.1, ctr', st'))
    ([], ctr, st)

/-- `extensions` is `defaultdict(dict)`: api → (extension name →
Extension). -/
abbrev ExtMap := List (String × List (String × Extension))

instance : DecidableEq ExtMap := inferInstance

/-- `self._extensions[api][name] = x` on a `defaultdict(dict)`. -/
def extInsert (api name : String) (x : Extension) : ExtMap → ExtMap
  | [] => [(api, [(name, x)])]
  | (a, inner) :: rest =>
      if a = api then (a, dictInsert name x inner) :: rest
      else (a, inner) :: extInsert api name x rest

/-- One inner-loop iteration of `extensions`
(`self._extensions[api][element.attrib['name']] = Extension(element, self)`):
a FRESH `Extension` is constructed in every iteration, consuming one
allocation id. -/
def extensionApiStep (enumsT : Except String EnumTable)
    (commandsT : Except String CmdTable) (element : Element)
    (acc : ExtMap × Nat) (api : String) : Except String (ExtMap × Nat) := do
  let (x, ctr') ← Extension.ofElement enumsT commandsT acc.2 element
  let name ← getOrErr (element.attrGet "name") "KeyError: name"
  pure (extInsert api name x acc.1, ctr')

/-- One outer-loop iteration of `extensions`: read `supported` once, then
run the inner per-api loop, constructing a fresh `Extension` per api. -/
def extensionStep (enumsT : Except String EnumTable)
    (commandsT : Except String CmdTable) (acc : ExtMap × Nat)
    (element : Element) : Except String (ExtMap × Nat) := do
  let supported ← getOrErr (element.attrGet "supported") "KeyError: supported"
  (pySplitChar supported '|').foldlM
    (extensionApiStep enumsT commandsT element) acc

/-- `OpenGLSpec.extensions`:
```python
for element in self.root.find('extensions'):
    for api in element.attrib['supported'].split('|'):
        self._extensions[api][element.attrib['name']] = Extension(element, self)
```
with `TypeError` when the container is absent (iterating `None`). -/
def deriveExtensions (root : Element) (enumsT : Except String EnumTable)
    (commandsT : Except String CmdTable) (ctr : Nat) :
    Except String (ExtMap × Nat) := do
  let container ← getOrErr (root.find "extensions") "TypeError: NoneType is not iterable"
  container.childListOf.foldlM (extensionStep enumsT commandsT)
    (([] : ExtMap), ctr)

/-! ## The spec object and its broken `fromstring` constructor -/

/-- An `OpenGLSpec`: the parsed root plus the mutable state. -/
structure OpenGLSpecObj where
  root : Element
  st : SpecState
deriving DecidableEq

/-- `OpenGLSpec.fromstring`:
```python
@classmethod
def fromstring(cls, string):
    return cls(etree.fromstring(raw))
```
The body references `raw`, which is not bound in the method's scope (the
parameter is `string` and there is no module-level `raw`), so every call
raises `NameError` before any parsing happens. -/
def OpenGLSpec.fromstring (_string : String) : Except String OpenGLSpecObj :=
  .error "NameError: global name raw is not defined"

/-! ## Shared helper lemmas -/

theorem except_bind_ok {α β : Type} (a : α) (f : α → Except String β) :
    (Except.ok a >>= f) = f a := rfl

theorem except_bind_error {α β : Type} (e : String) (f : α → Except String β) :
    ((Except.error e : Except String α) >>= f) =
      (Except.error e : Except String β) := rfl

theorem getOrErr_some {α : Type} (a : α) (e : String) :
    getOrErr (some a) e = Except.ok a := rfl

theorem getOrErr_none {α : Type} (e : String) :
    getOrErr (none : Option α) e = Except.error e := rfl

theorem mem_pySetAdd (l : List Ref) (r : Ref) : r ∈ pySetAdd l r := by
  unfold pySetAdd
  by_cases h : r ∈ l <;> simp [h]

theorem mem_of_mem_pySetAdd (l : List Ref) (r0 r : Ref)
    (h : r ∈ pySetAdd l r0) : r ∈ l ∨ r = r0 := by
  unfold pySetAdd at h
  by_cases hm : r0 ∈ l
  · simp only [if_pos hm] at h
    exact Or.inl h
  · simp only [if_neg hm, List.mem_append, List.mem_singleton] at h
    exact h

theorem dictLookup_mem {κ α : Type} [DecidableEq κ] (k : κ) (v : α) :
    ∀ l : List (κ × α), dictLookup k l = some v → (k, v) ∈ l
  | [], h => by simp [dictLookup] at h
  | (k', v') :: rest, h => by
      rw [dictLookup] at h
      split at h
      · next heq =>
          obtain rfl := heq
          obtain rfl : v' = v := by injection h
          exact List.mem_cons_self _ _
      · next => exact List.mem_cons_of_mem _ (dictLookup_mem k v rest h)

theorem dictLookup_insert_self {κ α : Type} [DecidableEq κ] (k : κ) (v : α) :
    ∀ l : List (κ × α), dictLookup k (dictInsert k v l) = some v
  | [] => by simp [dictInsert, dictLookup]
  | (k', v') :: rest => by
      by_cases h : k' = k <;>
        simp [dictInsert, dictLookup, h, dictLookup_insert_self k v rest]

theorem dictLookup_insert_other {κ α : Type} [DecidableEq κ] (k k0 : κ)
    (v : α) (hne : k0 ≠ k) :
    ∀ l : List (κ × α), dictLookup k0 (dictInsert k v l) = dictLookup k0 l
  | [] => by
      have hne' : ¬(k = k0) := fun h => hne h.symm
      simp [dictInsert, dictLookup, hne']
  | (k', v') :: rest => by
      have hne' : ¬(k = k0) := fun h => hne h.symm
      by_cases h : k' = k
      · subst h
        simp [dictInsert, dictLookup, hne']
      · simp [dictInsert, dictLookup, h,
          dictLookup_insert_other k k0 v hne rest]

/-! ## C5: rendering of a `const void **` type occurrence -/

/-- A type occurrence whose concatenated text is `const void **`. -/
def constVoidPtrPtrParam : Element :=
  Element.el "param" [] (some "const void **") []

/-- C5: for a type occurrence with concatenated text `const void **` the
parser yields base type `void`, pointer depth 2, const set; the
declarative form renders as `const(void*)*` and the call form as
`const void**`. -/
theorem c5_const_void_ptr_ptr_rendering :
    OGLType.ofElement constVoidPtrPtrParam = Except.ok ⟨some "void", 2, true⟩ ∧
    (OGLType.ofElement constVoidPtrPtrParam).map OGLType.to_d =
      Except.ok "const(void*)*" ∧
    (OGLType.ofElement constVoidPtrPtrParam).map OGLType.to_c =
      Except.ok "const void**" := by decide

/-! ## C9: `strip('const')` strips a character SET, mangling `short` -/

/-- A type occurrence whose concatenated text is `short *`. -/
def shortStarParam : Element := Element.el "param" [] (some "short *") []

/-- C9 (code bug): the claim says text `short *` parses to base type name
`short`, but `'short *'.strip().strip('const')` strips the characters
c, o, n, s, t from both ends, so the code computes base type `hort`. -/
theorem c9_short_star_mangled_to_hort :
    OGLType.ofElement shortStarParam = Except.ok ⟨some "hort", 1, false⟩ ∧
    some "hort" ≠ some "short" := by decide

/-! ## C8: `fromstring` references the undefined name `raw` -/

/-- C8 (code bug): the load-from-raw-text entry point never works — the
method body names `raw` instead of its `string` parameter, so every call
raises `NameError`, regardless of the input. -/
theorem c8_fromstring_always_raises :
    OpenGLSpec.fromstring "<registry></registry>" =
      Except.error "NameError: global name raw is not defined" := rfl

/-! ## C3: the profile setter validates and assigns -/

/-- C3: any value other than `core`/`compatability` makes the setter raise
`ValueError` (no state is produced, so the stored profile is unchanged);
`core` and `compatability` are accepted and stored. -/
theorem c3_profile_setter_validates (st : SpecState) (v : String) :
    (v ≠ "core" → v ≠ "compatability" →
      OpenGLSpec.setProfile st v =
        Except.error "profile must either be core or compatability") ∧
    (v = "core" ∨ v = "compatability" →
      OpenGLSpec.setProfile st v = Except.ok { st with profile := v }) := by
  constructor
  · intro h1 h2
    simp [OpenGLSpec.setProfile, h1, h2]
  · rintro (rfl | rfl) <;> simp [OpenGLSpec.setProfile]

/-- Witness for C3 at a concrete invalid and a concrete valid value. -/
theorem c3_profile_setter_validates_witness :
    OpenGLSpec.setProfile SpecState.init "invalid" =
      Except.error "profile must either be core or compatability" ∧
    OpenGLSpec.setProfile SpecState.init "core" =
      Except.ok { SpecState.init with profile := "core" } :=
  ⟨(c3_profile_setter_validates SpecState.init "invalid").1 (by decide)
      (by decide),
   (c3_profile_setter_validates SpecState.init "core").2 (Or.inl rfl)⟩

/-! ## C2: the `removed` query -/

/-- C2: `removed` is empty under the `compatability` profile, equals the
accumulated removal set under `core`, and is evaluated at query time — a
removal added between two queries (a `set.add` done by Feature
construction) is visible to the later query under `core`. -/
theorem c2_removed_query_semantics (st : SpecState) (r : Ref) :
    (st.profile = "compatability" → OpenGLSpec.removed st = []) ∧
    (st.profile = "core" → OpenGLSpec.removed st = st.remove) ∧
    (st.profile = "core" →
      r ∈ OpenGLSpec.removed { st with remove := pySetAdd st.remove r }) := by
  refine ⟨fun h => ?_, fun h => ?_, fun h => ?_⟩
  · simp [OpenGLSpec.removed, h]
  · simp [OpenGLSpec.removed, h]
  · simp only [OpenGLSpec.removed, h, if_pos]
    exact mem_pySetAdd st.remove r

/-- A sample removal-set entry for the C2 witness. -/
def sampleEnumRef : Ref := Ref.enum ⟨0, "GL_ONE", "1", "GL", none, none, none, ""⟩

/-- Witness for C2 at concrete states. -/
theorem c2_removed_query_semantics_witness :
    OpenGLSpec.removed ⟨"compatability", []⟩ = [] ∧
    OpenGLSpec.removed ⟨"core", [sampleEnumRef]⟩ = [sampleEnumRef] ∧
    sampleEnumRef ∈ OpenGLSpec.removed
      { (⟨"core", []⟩ : SpecState) with remove := pySetAdd [] sampleEnumRef } :=
  ⟨(c2_removed_query_semantics ⟨"compatability", []⟩ sampleEnumRef).1 rfl,
   (c2_removed_query_semantics ⟨"core", [sampleEnumRef]⟩ sampleEnumRef).2.1 rfl,
   (c2_removed_query_semantics ⟨"core", []⟩ sampleEnumRef).2.2 rfl⟩

/-! ## C10: missing container nodes -/

/-- C10: a document without a `<groups>`, `<commands>` or `<extensions>`
container makes the corresponding derivation raise (`find` returns `None`,
which is then iterated), while a document with no `<enums>`, `<feature>`
or `<types>` nodes yields empty collections without error. -/
theorem c10_missing_container_nodes (root : Element)
    (enumsT : Except String EnumTable) (commandsT : Except String CmdTable)
    (ctr : Nat) (st : SpecState) :
    (root.find "groups" = none →
      deriveGroups root = Except.error "TypeError: NoneType is not iterable") ∧
    (root.find "commands" = none →
      deriveCommands root ctr =
        Except.error "TypeError: NoneType is not iterable") ∧
    (root.find "extensions" = none →
      deriveExtensions root enumsT commandsT ctr =
        Except.error "TypeError: NoneType is not iterable") ∧
    (root.iterTag "enums" = [] → deriveEnums root ctr = Except.ok ([], ctr)) ∧
    (root.iterTag "feature" = [] →
      deriveFeatures root enumsT commandsT ctr st = Except.ok ([], ctr, st)) ∧
    (root.iterTag "types" = [] → deriveTypes root = []) := by
  refine ⟨fun h => ?_, fun h => ?_, fun h => ?_, fun h => ?_, fun h => ?_,
    fun h => ?_⟩ <;>
    simp [deriveGroups, deriveCommands, deriveExtensions, deriveEnums,
      deriveFeatures, deriveTypes, h, getOrErr, except_bind_error,
      except_bind_ok, pure, Except.pure]

/-- An empty registry document (for the C10 witness). -/
def bareRegistry : Element := Element.el "registry" [] none []

/-- Witness for C10 on a document with none of the six node kinds. -/
theorem c10_missing_container_nodes_witness :
    deriveGroups bareRegistry =
      Except.error "TypeError: NoneType is not iterable" ∧
    deriveCommands bareRegistry 0 =
      Except.error "TypeError: NoneType is not iterable" ∧
    deriveExtensions bareRegistry (Except.ok []) (Except.ok []) 0 =
      Except.error "TypeError: NoneType is not iterable" ∧
    deriveEnums bareRegistry 0 = Except.ok ([], 0) ∧
    deriveFeatures bareRegistry (Except.ok []) (Except.ok []) 0 SpecState.init =
      Except.ok ([], 0, SpecState.init) ∧
    deriveTypes bareRegistry = [] := by
  obtain ⟨h1, h2, h3, h4, h5, h6⟩ := c10_missing_container_nodes bareRegistry
    (Except.ok []) (Except.ok []) 0 SpecState.init
  exact ⟨h1 (by decide), h2 (by decide), h3 (by decide), h4 (by decide),
    h5 (by decide), h6 (by decide)⟩

/-! ## Lemmas on entry resolution and the require/remove folds -/

theorem foldlM_except_nil {α β : Type} (f : α → β → Except String α) (a : α) :
    List.foldlM f a ([] : List β) = Except.ok a := rfl

theorem foldlM_except_cons {α β : Type} (f : α → β → Except String α) (a : α)
    (b : β) (l : List β) :
    List.foldlM f a (b :: l) = f a b >>= fun a2 => List.foldlM f a2 l := rfl

theorem resolveEntry_type (enumsT : Except String EnumTable)
    (commandsT : Except String CmdTable) (el : Element)
    (h : el.tagOf = "type") :
    resolveEntry enumsT commandsT el = Except.ok none := by
  simp [resolveEntry, h]

theorem resolveEntry_enum (es : EnumTable) (cs : CmdTable) (el : Element)
    (h : el.tagOf = "enum") :
    resolveEntry (Except.ok es) (Except.ok cs) el =
      Except.ok ((el.attrGet "name").bind
        (fun n => (dictLookup n es).map Ref.enum)) := by
  simp [resolveEntry, h, except_bind_ok, pure, Except.pure]

theorem resolveEntry_cmd (es : EnumTable) (cs : CmdTable) (el : Element)
    (h : el.tagOf = "command") :
    resolveEntry (Except.ok es) (Except.ok cs) el =
      Except.ok ((el.attrGet "name").bind
        (fun n => (dictLookup (some n) cs).map Ref.cmd)) := by
  simp [resolveEntry, h, except_bind_ok, pure, Except.pure]

theorem resolveEntry_ok_of_tag (es : EnumTable) (cs : CmdTable) (el : Element)
    (h : el.tagOf = "type" ∨ el.tagOf = "enum" ∨ el.tagOf = "command") :
    ∃ o, resolveEntry (Except.ok es) (Except.ok cs) el = Except.ok o := by
  rcases h with h | h | h
  · exact ⟨none, resolveEntry_type _ _ el h⟩
  · exact ⟨_, resolveEntry_enum es cs el h⟩
  · exact ⟨_, resolveEntry_cmd es cs el h⟩

/-- An entry resolved to `some r` came from a successful table lookup. -/
theorem resolveEntry_some_provenance (es : EnumTable) (cs : CmdTable)
    (el : Element) (r : Ref)
    (h : resolveEntry (Except.ok es) (Except.ok cs) el = Except.ok (some r)) :
    (∃ n e, r = Ref.enum e ∧ dictLookup n es = some e) ∨
    (∃ n c, r = Ref.cmd c ∧ dictLookup (some n) cs = some c) := by
  by_cases ht : el.tagOf = "type"
  · rw [resolveEntry_type _ _ el ht] at h
    simp at h
  · by_cases he : el.tagOf = "enum"
    · rw [resolveEntry_enum es cs el he] at h
      have h2 : (el.attrGet "name").bind
          (fun n => (dictLookup n es).map Ref.enum) = some r := by injection h
      rcases Option.bind_eq_some.mp h2 with ⟨n, _, hmap⟩
      rcases Option.map_eq_some'.mp hmap with ⟨e, hee, hre⟩
      exact Or.inl ⟨n, e, hre.symm, hee⟩
    · by_cases hc : el.tagOf = "command"
      · rw [resolveEntry_cmd es cs el hc] at h
        have h2 : (el.attrGet "name").bind
            (fun n => (dictLookup (some n) cs).map Ref.cmd) = some r := by
          injection h
        rcases Option.bind_eq_some.mp h2 with ⟨n, _, hmap⟩
        rcases Option.map_eq_some'.mp hmap with ⟨c, hcc, hrc⟩
        exact Or.inr ⟨n, c, hrc.symm, hcc⟩
      · have herr : resolveEntry (Except.ok es) (Except.ok cs) el =
            Except.error "KeyError: tag" := by
          simp [resolveEntry, ht, he, hc, except_bind_ok]
        rw [herr] at h
        cases h

/-- A reference resolved from consistent tables that do not contain the
name `n` is itself not named `n`. -/
theorem resolved_ref_name_ne (es : EnumTable) (cs : CmdTable) (el : Element)
    (r : Ref) (hE : ∀ p ∈ es, (p.2 : Enum).name = p.1)
    (hC : ∀ p ∈ cs, (p.2 : Command).proto.name = p.1) (n : String)
    (hne : dictLookup n es = none) (hnc : dictLookup (some n) cs = none)
    (h : resolveEntry (Except.ok es) (Except.ok cs) el = Except.ok (some r)) :
    (∀ e : Enum, r = Ref.enum e → e.name ≠ n) ∧
    (∀ c : Command, r = Ref.cmd c → c.proto.name ≠ some n) := by
  rcases resolveEntry_some_provenance es cs el r h with
    ⟨n2, e, rfl, hee⟩ | ⟨n2, c, rfl, hcc⟩
  · refine ⟨fun e2 he2 hn => ?_, fun c2 hc2 => Ref.noConfusion hc2⟩
    obtain rfl : e = e2 := by injection he2
    have hname := hE (n2, e) (dictLookup_mem n2 e es hee)
    rw [hname] at hn
    subst hn
    rw [hee] at hne
    cases hne
  · refine ⟨fun e2 he2 => Ref.noConfusion he2, fun c2 hc2 hn => ?_⟩
    obtain rfl : c = c2 := by injection hc2
    have hname := hC (some n2, c) (dictLookup_mem (some n2) c cs hcc)
    rw [hname] at hn
    obtain rfl : n2 = n := by injection hn
    rw [hcc] at hnc
    cases hnc

theorem requireFold_ok (enumsT : Except String EnumTable)
    (commandsT : Except String CmdTable) :
    ∀ entries : List Element,
      (∀ el ∈ entries, ∃ o, resolveEntry enumsT commandsT el = Except.ok o) →
      ∀ acc : List Ref, ∃ res,
        entries.foldlM (requireStep enumsT commandsT) acc = Except.ok res
  | [], _, acc => ⟨acc, rfl⟩
  | e :: es, h, acc => by
      obtain ⟨o, ho⟩ := h e (List.mem_cons_self e es)
      have htl := fun el hel => h el (List.mem_cons_of_mem e hel)
      cases o with
      | none =>
          obtain ⟨res, hres⟩ := requireFold_ok enumsT commandsT es htl acc
          exact ⟨res, by
            rw [foldlM_except_cons]
            simp [requireStep, ho, except_bind_ok, hres, pure, Except.pure]⟩
      | some r =>
          obtain ⟨res, hres⟩ :=
            requireFold_ok enumsT commandsT es htl (acc ++ [r])
          exact ⟨res, by
            rw [foldlM_except_cons]
            simp [requireStep, ho, except_bind_ok, hres, pure, Except.pure]⟩

theorem requireFold_mem (enumsT : Except String EnumTable)
    (commandsT : Except String CmdTable) :
    ∀ (entries : List Element) (acc res : List Ref),
      entries.foldlM (requireStep enumsT commandsT) acc = Except.ok res →
      ∀ r ∈ res, r ∈ acc ∨
        ∃ el ∈ entries, resolveEntry enumsT commandsT el = Except.ok (some r)
  | [], acc, res, h, r, hr => by
      rw [foldlM_except_nil] at h
      obtain rfl : acc = res := by injection h
      exact Or.inl hr
  | e :: es, acc, res, h, r, hr => by
      rw [foldlM_except_cons] at h
      cases hre : resolveEntry enumsT commandsT e with
      | error msg => simp [requireStep, hre, except_bind_error] at h
      | ok o =>
          cases o with
          | none =>
              rw [show requireStep enumsT commandsT acc e = Except.ok acc by
                  simp [requireStep, hre, except_bind_ok, pure, Except.pure],
                except_bind_ok] at h
              rcases requireFold_mem enumsT commandsT es acc res h r hr with
                h1 | ⟨el, hel, hres⟩
              · exact Or.inl h1
              · exact Or.inr ⟨el, List.mem_cons_of_mem e hel, hres⟩
          | some r0 =>
              rw [show requireStep enumsT commandsT acc e =
                    Except.ok (acc ++ [r0]) by
                  simp [requireStep, hre, except_bind_ok, pure, Except.pure],
                except_bind_ok] at h
              rcases requireFold_mem enumsT commandsT es (acc ++ [r0]) res h
                r hr with h1 | ⟨el, hel, hres⟩
              · rcases List.mem_append.mp h1 with h2 | h2
                · exact Or.inl h2
                · obtain rfl : r = r0 := List.mem_singleton.mp h2
                  exact Or.inr ⟨e, List.mem_cons_self e es, hre⟩
              · exact Or.inr ⟨el, List.mem_cons_of_mem e hel, hres⟩

theorem removeFold_ok (enumsT : Except String EnumTable)
    (commandsT : Except String CmdTable) :
    ∀ entries : List Element,
      (∀ el ∈ entries, ∃ o, resolveEntry enumsT commandsT el = Except.ok o) →
      ∀ st : SpecState, ∃ st2,
        entries.foldlM (removeStep enumsT commandsT) st = Except.ok st2
  | [], _, st => ⟨st, rfl⟩
  | e :: es, h, st => by
      obtain ⟨o, ho⟩ := h e (List.mem_cons_self e es)
      have htl := fun el hel => h el (List.mem_cons_of_mem e hel)
      cases o with
      | none =>
          obtain ⟨st2, hst2⟩ := removeFold_ok enumsT commandsT es htl st
          exact ⟨st2, by
            rw [foldlM_except_cons]
            simp [removeStep, ho, except_bind_ok, hst2, pure, Except.pure]⟩
      | some r =>
          obtain ⟨st2, hst2⟩ := removeFold_ok enumsT commandsT es htl
            { st with remove := pySetAdd st.remove r }
          exact ⟨st2, by
            rw [foldlM_except_cons]
            simp [removeStep, ho, except_bind_ok, hst2, pure, Except.pure]⟩

theorem removeFold_mem (enumsT : Except String EnumTable)
    (commandsT : Except String CmdTable) :
    ∀ (entries : List Element) (st st2 : SpecState),
      entries.foldlM (removeStep enumsT commandsT) st = Except.ok st2 →
      ∀ r ∈ st2.remove, r ∈ st.remove ∨
        ∃ el ∈ entries, resolveEntry enumsT commandsT el = Except.ok (some r)
  | [], st, st2, h, r, hr => by
      rw [foldlM_except_nil] at h
      obtain rfl : st = st2 := by injection h
      exact Or.inl hr
  | e :: es, st, st2, h, r, hr => by
      rw [foldlM_except_cons] at h
      cases hre : resolveEntry enumsT commandsT e with
      | error msg => simp [removeStep, hre, except_bind_error] at h
      | ok o =>
          cases o with
          | none =>
              rw [show removeStep enumsT commandsT st e = Except.ok st by
                  simp [removeStep, hre, except_bind_ok, pure, Except.pure],
                except_bind_ok] at h
              rcases removeFold_mem enumsT commandsT es st st2 h r hr with
                h1 | ⟨el, hel, hres⟩
              · exact Or.inl h1
              · exact Or.inr ⟨el, List.mem_cons_of_mem e hel, hres⟩
          | some r0 =>
              rw [show removeStep enumsT commandsT st e =
                    Except.ok { st with remove := pySetAdd st.remove r0 } by
                  simp [removeStep, hre, except_bind_ok, pure, Except.pure],
                except_bind_ok] at h
              rcases removeFold_mem enumsT commandsT es
                { st with remove := pySetAdd st.remove r0 } st2 h r hr with
                h1 | ⟨el, hel, hres⟩
              · rcases mem_of_mem_pySetAdd st.remove r0 r h1 with h2 | rfl
                · exact Or.inl h2
                · exact Or.inr ⟨e, List.mem_cons_self e es, hre⟩
              · exact Or.inr ⟨el, List.mem_cons_of_mem e hel, hres⟩

/-! ## C4: unresolvable require/remove entries are silently skipped -/

/-- C4: for enum/command entries whose name is not in the derived tables,
Extension and Feature construction silently skips the entry and never
raises — construction succeeds (given well-formed tags and attributes) and
every view and the removal set omit the unresolved name. -/
theorem c4_unresolved_refs_skipped
    (es : EnumTable) (cs : CmdTable) (element : Element) (ctr : Nat)
    (st : SpecState) (n nm numberStr apiStr : String) (nums : List Int)
    (hE : ∀ p ∈ es, (p.2 : Enum).name = p.1)
    (hC : ∀ p ∈ cs, (p.2 : Command).proto.name = p.1)
    (hname : element.attrGet "name" = some nm)
    (hreqtags : ∀ el ∈ ((element.findall "require").map
        Element.childListOf).flatten,
      el.tagOf = "type" ∨ el.tagOf = "enum" ∨ el.tagOf = "command")
    (hremtags : ∀ el ∈ ((element.findall "remove").map
        Element.childListOf).flatten,
      el.tagOf = "type" ∨ el.tagOf = "enum" ∨ el.tagOf = "command")
    (hnumber : element.attrGet "number" = some numberStr)
    (hnums : (pySplitChar numberStr '.').mapM
      (fun s => getOrErr (pyInt s) "ValueError: invalid literal for int") =
      Except.ok nums)
    (hapi : element.attrGet "api" = some apiStr)
    (hne : dictLookup n es = none) (hnc : dictLookup (some n) cs = none) :
    (∃ x : Extension × Nat,
      Extension.ofElement (Except.ok es) (Except.ok cs) ctr element =
        Except.ok x ∧
      (∀ e ∈ x.1.enums, e.name ≠ n) ∧
      (∀ c ∈ x.1.functions, c.proto.name ≠ some n)) ∧
    (∃ y : Feature × Nat × SpecState,
      Feature.ofElement (Except.ok es) (Except.ok cs) ctr st element =
        Except.ok y ∧
      (∀ q : SpecState, ∀ e ∈ y.1.enums q, e.name ≠ n) ∧
      (∀ q : SpecState, ∀ c ∈ y.1.functions q, c.proto.name ≠ some n) ∧
      (∀ r ∈ y.2.2.remove, r ∈ st.remove ∨
        ((∀ e : Enum, r = Ref.enum e → e.name ≠ n) ∧
         (∀ c : Command, r = Ref.cmd c → c.proto.name ≠ some n)))) := by
  obtain ⟨req, hreq⟩ := requireFold_ok (Except.ok es) (Except.ok cs) _
    (fun el hel => resolveEntry_ok_of_tag es cs el (hreqtags el hel)) []
  have hext : Extension.ofElement (Except.ok es) (Except.ok cs) ctr element =
      Except.ok (⟨ctr, nm, req⟩, ctr + 1) := by
    simp only [Extension.ofElement, hname, getOrErr_some, hreq,
      except_bind_ok, pure, Except.pure]
  have hprov : ∀ r ∈ req,
      (∀ e : Enum, r = Ref.enum e → e.name ≠ n) ∧
      (∀ c : Command, r = Ref.cmd c → c.proto.name ≠ some n) := by
    intro r hr
    rcases requireFold_mem (Except.ok es) (Except.ok cs) _ [] req hreq r hr
      with h1 | ⟨el, hel, hres⟩
    · cases h1
    · exact resolved_ref_name_ne es cs el r hE hC n hne hnc hres
  have henums : ∀ e ∈ (Extension.mk ctr nm req).enums, e.name ≠ n := by
    intro e he
    simp only [Extension.enums] at he
    rcases List.mem_filterMap.mp he with ⟨r, hrmem, hmatch⟩
    cases r with
    | enum e2 =>
        have he2 : e2 = e := by simpa using hmatch
        rw [← he2]
        exact (hprov (Ref.enum e2) hrmem).1 e2 rfl
    | cmd c2 => simp at hmatch
  have hfuncs : ∀ c ∈ (Extension.mk ctr nm req).functions,
      c.proto.name ≠ some n := by
    intro c hc
    simp only [Extension.functions] at hc
    rcases List.mem_filterMap.mp hc with ⟨r, hrmem, hmatch⟩
    cases r with
    | enum e2 => simp at hmatch
    | cmd c2 =>
        have hc2 : c2 = c := by simpa using hmatch
        rw [← hc2]
        exact (hprov (Ref.cmd c2) hrmem).2 c2 rfl
  refine ⟨⟨(⟨ctr, nm, req⟩, ctr + 1), hext, henums, hfuncs⟩, ?_⟩
  obtain ⟨st2, hst2⟩ := removeFold_ok (Except.ok es) (Except.ok cs) _
    (fun el hel => resolveEntry_ok_of_tag es cs el (hremtags el hel)) st
  have hfeat : Feature.ofElement (Except.ok es) (Except.ok cs) ctr st
      element = Except.ok (⟨ctr, nm, req, nums, apiStr⟩, ctr + 1, st2) := by
    simp only [Feature.ofElement, hext, except_bind_ok, hst2, hnumber,
      getOrErr_some, hnums, hapi, pure, Except.pure]
  refine ⟨(⟨ctr, nm, req, nums, apiStr⟩, ctr + 1, st2), hfeat, ?_, ?_, ?_⟩
  · intro q e he
    simp only [Feature.enums] at he
    have he2 := (List.mem_filter.mp he).1
    rcases List.mem_filterMap.mp he2 with ⟨r, hrmem, hmatch⟩
    cases r with
    | enum e2 =>
        have he2 : e2 = e := by simpa using hmatch
        rw [← he2]
        exact (hprov (Ref.enum e2) hrmem).1 e2 rfl
    | cmd c2 => simp at hmatch
  · intro q c hc
    simp only [Feature.functions] at hc
    have hc2 := (List.mem_filter.mp hc).1
    rcases List.mem_filterMap.mp hc2 with ⟨r, hrmem, hmatch⟩
    cases r with
    | enum e2 => simp at hmatch
    | cmd c2 =>
        have hc2 : c2 = c := by simpa using hmatch
        rw [← hc2]
        exact (hprov (Ref.cmd c2) hrmem).2 c2 rfl
  · intro r hr
    rcases removeFold_mem (Except.ok es) (Except.ok cs) _ st st2 hst2 r hr
      with h1 | ⟨el, hel, hres⟩
    · exact Or.inl h1
    · exact Or.inr (resolved_ref_name_ne es cs el r hE hC n hne hnc hres)

/-- The one resolvable command of the C4 witness tables. -/
def c4Cmd : Command := ⟨7, ⟨some "glReal", ⟨some "void", 0, false⟩⟩, []⟩

/-- A commands table that does not contain `glNope`. -/
def c4Cs : CmdTable := [(some "glReal", c4Cmd)]

/-- A feature element requiring and removing the nonexistent `glNope`. -/
def c4Feat : Element := Element.el "feature"
  [("api", "gl"), ("number", "1.0"), ("name", "GL_VERSION_1_0")] none
  [Element.el "require" [] none
    [Element.el "command" [("name", "glNope")] none []],
   Element.el "remove" [] none
    [Element.el "command" [("name", "glNope")] none []]]

/-- Witness for C4: constructing from `c4Feat` with tables lacking
`glNope` succeeds, and nothing named `glNope` appears anywhere. -/
theorem c4_unresolved_refs_skipped_witness :
    (∃ x : Extension × Nat,
      Extension.ofElement (Except.ok []) (Except.ok c4Cs) 0 c4Feat =
        Except.ok x ∧
      (∀ e ∈ x.1.enums, e.name ≠ "glNope") ∧
      (∀ c ∈ x.1.functions, c.proto.name ≠ some "glNope")) ∧
    (∃ y : Feature × Nat × SpecState,
      Feature.ofElement (Except.ok []) (Except.ok c4Cs) 0 SpecState.init
        c4Feat = Except.ok y ∧
      (∀ q : SpecState, ∀ e ∈ y.1.enums q, e.name ≠ "glNope") ∧
      (∀ q : SpecState, ∀ c ∈ y.1.functions q,
        c.proto.name ≠ some "glNope") ∧
      (∀ r ∈ y.2.2.remove, r ∈ SpecState.init.remove ∨
        ((∀ e : Enum, r = Ref.enum e → e.name ≠ "glNope") ∧
         (∀ c : Command, r = Ref.cmd c → c.proto.name ≠ some "glNope")))) :=
  c4_unresolved_refs_skipped [] c4Cs c4Feat 0 SpecState.init "glNope"
    "GL_VERSION_1_0" "1.0" "gl" [1, 0] (by decide) (by decide) (by decide)
    (by decide) (by decide) (by decide) (by decide) (by decide) (by decide)
    (by decide)

/-! ## C6: one extension node, several `supported` variants -/

/-- Lookup of the extension registered under `(api, name)` in the nested
`extensions` map. -/
def extLookup (api name : String) (m : ExtMap) : Option Extension :=
  (dictLookup api m).bind (dictLookup name)

theorem extLookup_insert_self (api name : String) (x : Extension) :
    ∀ m : ExtMap, extLookup api name (extInsert api name x m) = some x
  | [] => by
      simp [extInsert, extLookup, dictLookup, dictLookup_insert_self]
  | (a, inner) :: rest => by
      by_cases h : a = api
      · subst h
        simp [extInsert, extLookup, dictLookup, dictLookup_insert_self]
      · simpa [extInsert, extLookup, dictLookup, h] using
          extLookup_insert_self api name x rest

theorem extLookup_insert_other (api name a2 : String) (x : Extension)
    (hne : a2 ≠ api) :
    ∀ m : ExtMap,
      extLookup a2 name (extInsert api name x m) = extLookup a2 name m
  | [] => by
      have h2 : ¬(api = a2) := fun h => hne h.symm
      simp [extInsert, extLookup, dictLookup, h2]
  | (a, inner) :: rest => by
      have h2 : ¬(api = a2) := fun h => hne h.symm
      by_cases h : a = api
      · subst h
        simp [extInsert, extLookup, dictLookup, h2]
      · by_cases h3 : a = a2
        · subst h3
          simp [extInsert, extLookup, dictLookup, h]
        · simpa [extInsert, extLookup, dictLookup, h, h3] using
            extLookup_insert_other api name a2 x hne rest

/-- An `Extension.__init__` success determines the shape of the result:
the object's `id` is the allocation counter, and the same element builds
the same name and require list at every counter. -/
theorem Extension.ofElement_shape (enumsT : Except String EnumTable)
    (commandsT : Except String CmdTable) (el : Element) (c0 c1 : Nat)
    (x : Extension)
    (h : Extension.ofElement enumsT commandsT c0 el = Except.ok (x, c1)) :
    x.id = c0 ∧ c1 = c0 + 1 ∧
    ∀ c : Nat, Extension.ofElement enumsT commandsT c el =
      Except.ok (⟨c, x.name, x.require⟩, c + 1) := by
  cases hn : el.attrGet "name" with
  | none =>
      rw [Extension.ofElement, hn, getOrErr_none, except_bind_error] at h
      cases h
  | some nm =>
      cases hf : ((el.findall "require").map Element.childListOf).flatten.foldlM
          (requireStep enumsT commandsT) [] with
      | error msg =>
          rw [Extension.ofElement, hn, getOrErr_some, except_bind_ok, hf,
            except_bind_error] at h
          cases h
      | ok req =>
          rw [Extension.ofElement, hn, getOrErr_some, except_bind_ok, hf,
            except_bind_ok] at h
          obtain ⟨rfl, rfl⟩ : (⟨c0, nm, req⟩ : Extension) = x ∧ c0 + 1 = c1 := by
            have h2 : Except.ok ((⟨c0, nm, req⟩ : Extension), c0 + 1) =
                Except.ok (x, c1) := h
            injection h2 with h3
            exact ⟨congrArg Prod.fst h3, congrArg Prod.snd h3⟩
          refine ⟨rfl, rfl, fun c => ?_⟩
          rw [Extension.ofElement, hn, getOrErr_some, except_bind_ok, hf,
            except_bind_ok]
          rfl

/-- The inner per-api registration loop: starting from any map and counter,
it succeeds, leaves other apis' entries alone, and registers under the
i-th api a FRESH extension whose id is the starting counter plus i. -/
theorem extApiFold_spec (enumsT : Except String EnumTable)
    (commandsT : Except String CmdTable) (element : Element)
    (name : String) (req : List Ref)
    (hname : element.attrGet "name" = some name)
    (hok : ∀ c : Nat, Extension.ofElement enumsT commandsT c element =
      Except.ok (⟨c, name, req⟩, c + 1)) :
    ∀ (apis : List String) (m : ExtMap) (c : Nat),
      ∃ m2 : ExtMap,
        apis.foldlM (extensionApiStep enumsT commandsT element) (m, c) =
          Except.ok (m2, c + apis.length) ∧
        (∀ a, a ∉ apis → extLookup a name m2 = extLookup a name m) ∧
        (∀ i (hi : i < apis.length), apis.Nodup →
          extLookup (apis.get ⟨i, hi⟩) name m2 = some ⟨c + i, name, req⟩)
  | [], m, c =>
      ⟨m, by simp [foldlM_except_nil, pure, Except.pure], fun a _ => rfl,
        fun i hi _ => absurd hi (by simp)⟩
  | a :: rest, m, c => by
      obtain ⟨m2, hfold, hpres, hidx⟩ := extApiFold_spec enumsT commandsT
        element name req hname hok rest
        (extInsert a name ⟨c, name, req⟩ m) (c + 1)
      refine ⟨m2, ?_, ?_, ?_⟩
      · rw [foldlM_except_cons]
        rw [show extensionApiStep enumsT commandsT element (m, c) a =
              Except.ok (extInsert a name ⟨c, name, req⟩ m, c + 1) by
            simp only [extensionApiStep, hok c, except_bind_ok, hname,
              getOrErr_some, pure, Except.pure]]
        rw [except_bind_ok]
        have harith : c + 1 + rest.length = c + (rest.length + 1) := by omega
        rw [hfold, List.length_cons, harith]
      · intro a2 ha2
        have h1 : a2 ∉ rest := fun hh => ha2 (List.mem_cons_of_mem a hh)
        have h2 : a2 ≠ a := fun hh => ha2 (hh ▸ List.mem_cons_self a rest)
        rw [hpres a2 h1, extLookup_insert_other a name a2 _ h2 m]
      · intro i hi hnd
        have hanot : a ∉ rest := (List.nodup_cons.mp hnd).1
        have hnd2 : rest.Nodup := (List.nodup_cons.mp hnd).2
        cases i with
        | zero =>
            have h0 : extLookup ((a :: rest).get ⟨0, hi⟩) name m2 =
                some ⟨c, name, req⟩ := by
              show extLookup a name m2 = _
              rw [hpres a hanot, extLookup_insert_self]
            rw [h0]
            norm_num
        | succ j =>
            have hj : j < rest.length := by simpa using hi
            have hget : (a :: rest).get ⟨j + 1, hi⟩ = rest.get ⟨j, hj⟩ := rfl
            rw [hget, hidx j hj hnd2]
            have harith : c + 1 + j = c + (j + 1) := by omega
            rw [harith]

/-- An extension node supported by `gl` and `gles`. -/
def c6Ext : Element := Element.el "extension"
  [("name", "GL_EXT_demo"), ("supported", "gl|gles")] none []

/-- The `<extensions>` container holding `c6Ext`. -/
def c6Container : Element := Element.el "extensions" [] none [c6Ext]

/-- A registry whose only extension is `c6Ext`. -/
def c6Root : Element := Element.el "registry" [] none [c6Container]

/-- C6 (counterexample): the extension supported by `gl|gles` is
registered under both variants, but the two registered entries are
DISTINCT `Extension` allocations (ids 0 and 1) — `Extension(element,
self)` runs inside the per-api loop, so the entries are not one shared
instance. -/
theorem c6_counterexample_distinct_instances :
    deriveExtensions c6Root (Except.ok []) (Except.ok []) 0 =
      Except.ok ([("gl", [("GL_EXT_demo", ⟨0, "GL_EXT_demo", []⟩)]),
                  ("gles", [("GL_EXT_demo", ⟨1, "GL_EXT_demo", []⟩)])], 2) ∧
    ((⟨0, "GL_EXT_demo", []⟩ : Extension) ≠ ⟨1, "GL_EXT_demo", []⟩) := by
  decide

/-- C6 (amended): each extension node is registered under every variant of
its `supported` list keyed by its name, and the per-variant entries are
structurally equal (same name, same require list, built from the same
element and tables) but are freshly constructed per variant — pairwise
distinct instances, not one shared one. -/
theorem c6_amended_fresh_instance_per_variant (es : EnumTable)
    (cs : CmdTable) (root container element : Element)
    (name supported : String) (req : List Ref) (ctr : Nat)
    (hroot : root.find "extensions" = some container)
    (hch : container.childListOf = [element])
    (hsup : element.attrGet "supported" = some supported)
    (hname : element.attrGet "name" = some name)
    (hok : ∀ c : Nat, Extension.ofElement (Except.ok es) (Except.ok cs) c
      element = Except.ok (⟨c, name, req⟩, c + 1))
    (hnd : (pySplitChar supported '|').Nodup) :
    ∃ m2 : ExtMap,
      deriveExtensions root (Except.ok es) (Except.ok cs) ctr =
        Except.ok (m2, ctr + (pySplitChar supported '|').length) ∧
      (∀ i (hi : i < (pySplitChar supported '|').length),
        extLookup ((pySplitChar supported '|').get ⟨i, hi⟩) name m2 =
          some ⟨ctr + i, name, req⟩) ∧
      (∀ i j (hi : i < (pySplitChar supported '|').length)
        (hj : j < (pySplitChar supported '|').length), i ≠ j →
        ∃ xi xj : Extension,
          extLookup ((pySplitChar supported '|').get ⟨i, hi⟩) name m2 =
            some xi ∧
          extLookup ((pySplitChar supported '|').get ⟨j, hj⟩) name m2 =
            some xj ∧
          xi.name = xj.name ∧ xi.require = xj.require ∧ xi ≠ xj) := by
  obtain ⟨m2, hfold, hpres, hidx⟩ := extApiFold_spec (Except.ok es)
    (Except.ok cs) element name req hname hok (pySplitChar supported '|')
    [] ctr
  refine ⟨m2, ?_, fun i hi => hidx i hi hnd, ?_⟩
  · simp only [deriveExtensions, hroot, getOrErr_some, except_bind_ok, hch]
    rw [foldlM_except_cons]
    rw [show extensionStep (Except.ok es) (Except.ok cs) (([] : ExtMap), ctr)
          element =
          Except.ok (m2, ctr + (pySplitChar supported '|').length) by
        simp only [extensionStep, hsup, getOrErr_some, except_bind_ok]
        exact hfold]
    rw [except_bind_ok, foldlM_except_nil]
  · intro i j hi hj hij
    refine ⟨⟨ctr + i, name, req⟩, ⟨ctr + j, name, req⟩, hidx i hi hnd,
      hidx j hj hnd, rfl, rfl, ?_⟩
    intro heq
    have h2 : ctr + i = ctr + j := congrArg Extension.id heq
    exact hij (by omega)

/-- Witness for the amended C6 on the concrete `gl|gles` extension. -/
theorem c6_amended_fresh_instance_per_variant_witness :
    ∃ m2 : ExtMap,
      deriveExtensions c6Root (Except.ok []) (Except.ok []) 0 =
        Except.ok (m2, 0 + (pySplitChar "gl|gles" '|').length) ∧
      (∀ i (hi : i < (pySplitChar "gl|gles" '|').length),
        extLookup ((pySplitChar "gl|gles" '|').get ⟨i, hi⟩) "GL_EXT_demo"
          m2 = some ⟨0 + i, "GL_EXT_demo", []⟩) ∧
      (∀ i j (hi : i < (pySplitChar "gl|gles" '|').length)
        (hj : j < (pySplitChar "gl|gles" '|').length), i ≠ j →
        ∃ xi xj : Extension,
          extLookup ((pySplitChar "gl|gles" '|').get ⟨i, hi⟩) "GL_EXT_demo"
            m2 = some xi ∧
          extLookup ((pySplitChar "gl|gles" '|').get ⟨j, hj⟩) "GL_EXT_demo"
            m2 = some xj ∧
          xi.name = xj.name ∧ xi.require = xj.require ∧ xi ≠ xj) :=
  c6_amended_fresh_instance_per_variant [] [] c6Root c6Container c6Ext
    "GL_EXT_demo" "gl|gles" [] 0 (by decide) (by decide) (by decide)
    (by decide)
    (fun c => (Extension.ofElement_shape (Except.ok []) (Except.ok [])
      c6Ext 0 1 ⟨0, "GL_EXT_demo", []⟩ (by decide)).2.2 c)
    (by decide)

/-! ## C7: equality is identity, hash is by name -/

/-- A registry with one enum, for deriving two `Enum` allocations. -/
def c7Registry : Element := Element.el "registry" [] none
  [Element.el "enums" [("namespace", "GL")] none
    [Element.el "enum" [("name", "GL_FOO"), ("value", "0x1")] none []]]

/-- C7 (counterexample): two separately derived `Enum` objects for the same
document (two `OpenGLSpec` instances, allocation counters 0 and 1) have
equal names but compare UNEQUAL — `Enum` defines `__hash__` only, so
equality is object identity, not name equality. -/
theorem c7_counterexample_identity_not_name :
    deriveEnums c7Registry 0 =
      Except.ok ([("GL_FOO", ⟨0, "GL_FOO", "0x1", "GL", none, none, none, ""⟩)], 1) ∧
    deriveEnums c7Registry 1 =
      Except.ok ([("GL_FOO", ⟨1, "GL_FOO", "0x1", "GL", none, none, none, ""⟩)], 2) ∧
    Enum.pyEq ⟨0, "GL_FOO", "0x1", "GL", none, none, none, ""⟩
      ⟨1, "GL_FOO", "0x1", "GL", none, none, none, ""⟩ = false ∧
    (⟨0, "GL_FOO", "0x1", "GL", none, none, none, ""⟩ : Enum).name =
      (⟨1, "GL_FOO", "0x1", "GL", none, none, none, ""⟩ : Enum).name := by decide

/-- C7 (amended): hashes are the hash of the name, but equality is object
identity — it implies name equality and distinct allocations with equal
names are unequal. -/
theorem c7_amended_hash_by_name_eq_by_identity (a b : Enum) (c d : Command) :
    Enum.pyHash a = pyHashStr (some a.name) ∧
    Command.pyHash c = pyHashStr c.proto.name ∧
    (Enum.pyEq a b = true ↔ a = b) ∧
    (Command.pyEq c d = true ↔ c = d) ∧
    (Enum.pyEq a b = true → a.name = b.name) ∧
    (Command.pyEq c d = true → c.proto.name = d.proto.name) := by
  refine ⟨rfl, rfl, by simp [Enum.pyEq], by simp [Command.pyEq],
    fun h => ?_, fun h => ?_⟩
  · obtain rfl : a = b := by simpa [Enum.pyEq] using h
    rfl
  · obtain rfl : c = d := by simpa [Command.pyEq] using h
    rfl

/-- A sample enum object for the C7 witness. -/
def sampleEnumA : Enum := ⟨0, "GL_ONE", "1", "GL", none, none, none, ""⟩

/-- A sample command object for the C7 witness. -/
def sampleCmdA : Command := ⟨0, ⟨some "glFoo", ⟨some "void", 0, false⟩⟩, []⟩

/-! ## C1: the removal set is global, not scoped to the removing Feature -/

/-- C1: once `features` is fully derived, any reference resolved into the
removal set is excluded from EVERY derived Feature's `functions`/`enums`
views when queried with profile `core` — also from Features of earlier
versions than the one whose `<remove>` block resolved it. -/
theorem c1_removal_set_is_global (root : Element)
    (enumsT : Except String EnumTable) (commandsT : Except String CmdTable)
    (ctr : Nat) (st : SpecState) (fm : FeatMap) (ctr2 : Nat) (st2 : SpecState)
    (hstart : st.remove = [])
    (hderive : deriveFeatures root enumsT commandsT ctr st =
      Except.ok (fm, ctr2, st2))
    (api : String) (inner : List (List Int × Feature))
    (hapi : (api, inner) ∈ fm) (num : List Int) (f : Feature)
    (hf : (num, f) ∈ inner) (r : Ref) (hr : r ∈ st2.remove) :
    (∀ c : Command, r = Ref.cmd c →
      c ∉ f.functions { st2 with profile := "core" }) ∧
    (∀ e : Enum, r = Ref.enum e →
      e ∉ f.enums { st2 with profile := "core" }) := by
  constructor
  · rintro c rfl hc
    simp only [Feature.functions] at hc
    have h2 := (List.mem_filter.mp hc).2
    rw [decide_eq_true_iff] at h2
    exact h2 (by simpa [OpenGLSpec.removed] using hr)
  · rintro e rfl he
    simp only [Feature.enums] at he
    have h2 := (List.mem_filter.mp he).2
    rw [decide_eq_true_iff] at h2
    exact h2 (by simpa [OpenGLSpec.removed] using hr)

/-- A registry containing command `glFoo`, a feature 1.0 requiring it and a
feature 2.0 removing it (the scenario in the spec's testable property). -/
def demoRoot : Element := Element.el "registry" [] none
  [Element.el "commands" [] none
    [Element.el "command" [] none
      [Element.el "proto" [] (some "void ")
        [Element.el "name" [] (some "glFoo") []]]],
   Element.el "feature"
     [("api", "gl"), ("number", "1.0"), ("name", "GL_VERSION_1_0")] none
     [Element.el "require" [] none
       [Element.el "command" [("name", "glFoo")] none []]],
   Element.el "feature"
     [("api", "gl"), ("number", "2.0"), ("name", "GL_VERSION_2_0")] none
     [Element.el "remove" [] none
       [Element.el "command" [("name", "glFoo")] none []]]]

/-- The lazily derived `enums` table of `demoRoot` (empty). -/
def demoEnumsT : Except String EnumTable :=
  (deriveEnums demoRoot 0).map Prod.fst

/-- The lazily derived `commands` table of `demoRoot`. -/
def demoCommandsT : Except String CmdTable :=
  (deriveCommands demoRoot 0).map Prod.fst

/-- The one `Command` object of `demoRoot` (allocation id 0). -/
def demoGlFoo : Command := ⟨0, ⟨some "glFoo", ⟨some "void", 0, false⟩⟩, []⟩

/-- The derived feature 1.0 (requires `glFoo`). -/
def demoF1 : Feature := ⟨100, "GL_VERSION_1_0", [Ref.cmd demoGlFoo], [1, 0], "gl"⟩

/-- The derived feature 2.0 (removes `glFoo`). -/
def demoF2 : Feature := ⟨101, "GL_VERSION_2_0", [], [2, 0], "gl"⟩

/-- The inner version-keyed map for api `gl` after full derivation. -/
def demoInner : List (List Int × Feature) := [([1, 0], demoF1), ([2, 0], demoF2)]

/-- The full derived `features` map of `demoRoot`. -/
def demoFeatMap : FeatMap := [("gl", demoInner)]

/-- The spec state after full derivation: `glFoo` is in the removal set. -/
def demoStAfter : SpecState := ⟨"compatability", [Ref.cmd demoGlFoo]⟩

/-- Witness for C1: in the concrete two-feature scenario, after deriving
all features, `glFoo` is excluded from the EARLIER feature 1.0's
`functions` view under the `core` profile. -/
theorem c1_removal_set_is_global_witness :
    SpecState.init.remove = [] ∧
    deriveFeatures demoRoot demoEnumsT demoCommandsT 100 SpecState.init =
      Except.ok (demoFeatMap, 102, demoStAfter) ∧
    ("gl", demoInner) ∈ demoFeatMap ∧
    ([1, 0], demoF1) ∈ demoInner ∧
    Ref.cmd demoGlFoo ∈ demoStAfter.remove ∧
    demoGlFoo ∉ demoF1.functions { demoStAfter with profile := "core" } := by
  refine ⟨rfl, by decide, by decide, by decide, by decide, ?_⟩
  exact (c1_removal_set_is_global demoRoot demoEnumsT demoCommandsT 100
    SpecState.init demoFeatMap 102 demoStAfter rfl (by decide) "gl" demoInner
    (by decide) [1, 0] demoF1 (by decide) (Ref.cmd demoGlFoo) (by decide)).1
    demoGlFoo rfl

/-- Witness for the amended C7 at concrete objects. -/
theorem c7_amended_hash_by_name_eq_by_identity_witness :
    Enum.pyHash sampleEnumA = pyHashStr (some sampleEnumA.name) ∧
    sampleEnumA.name = sampleEnumA.name ∧
    sampleCmdA.proto.name = sampleCmdA.proto.name :=
  ⟨(c7_amended_hash_by_name_eq_by_identity sampleEnumA sampleEnumA
      sampleCmdA sampleCmdA).1,
   (c7_amended_hash_by_name_eq_by_identity sampleEnumA sampleEnumA
      sampleCmdA sampleCmdA).2.2.2.2.1 (by decide),
   (c7_amended_hash_by_name_eq_by_identity sampleEnumA sampleEnumA
      sampleCmdA sampleCmdA).2.2.2.2.2 (by decide)⟩

end Glad
